import Mathlib

/-!
Verification of the structural Lean-source parser and transformer
(`extract_sublemmas` module): line normalizer, header extractor, block
scanner, statement/proof splitter, block classifier, all-blocks extractor,
composer and stub generator.  The Python code is embedded shallowly:
strings are `String` (lists of characters, as in Python, where indexing and
slicing are by character), fallible operations return `Option`/`Except`,
and `while` loops become fuel-based recursions whose fuel is an upper bound
on the number of iterations (each iteration strictly advances the index,
which is bounded by the list length, so the top-level fuel never runs out).
-/

namespace Numina

/-! ### Python string primitives

Character-level models of the CPython `str` operations used by the parser:
`strip`/`lstrip`/`rstrip` (ASCII whitespace), `split()` (whitespace split,
no empty tokens), `splitlines()`, `startswith`, and
`replace(old, new, 1)` (first occurrence only; an empty `old` inserts at
position 0). -/

def pyIsSpace (c : Char) : Bool :=
  c = ' ' || c = '\t' || c = '\n' || c = '\r' || c = '\x0b' || c = '\x0c'

def stripListLeft (l : List Char) : List Char := l.dropWhile pyIsSpace

def stripListRight (l : List Char) : List Char := (l.reverse.dropWhile pyIsSpace).reverse

def stripList (l : List Char) : List Char := stripListRight (stripListLeft l)

def pyStrip (s : String) : String := ⟨stripList s.data⟩

def pyLstrip (s : String) : String := ⟨stripListLeft s.data⟩

def pyRstrip (s : String) : String := ⟨stripListRight s.data⟩

def pyStartsWith (s pre : String) : Bool := pre.data.isPrefixOf s.data

def pySplitWsAux : List Char → List Char → List (List Char)
  | [], acc => if acc.isEmpty then [] else [acc]
  | c :: rest, acc =>
    if pyIsSpace c then
      if acc.isEmpty then pySplitWsAux rest [] else acc :: pySplitWsAux rest []
    else pySplitWsAux rest (acc ++ [c])

def pySplit (s : String) : List String := (pySplitWsAux s.data []).map String.mk

def pySplitlinesAux : List Char → List Char → List String
  | '\r' :: '\n' :: rest, acc => String.mk acc :: pySplitlinesAux rest []
  | '\r' :: rest, acc => String.mk acc :: pySplitlinesAux rest []
  | '\n' :: rest, acc => String.mk acc :: pySplitlinesAux rest []
  | c :: rest, acc => pySplitlinesAux rest (acc ++ [c])
  | [], acc => if acc.isEmpty then [] else [String.mk acc]

def pySplitlines (s : String) : List String := pySplitlinesAux s.data []

/-- Index of the first occurrence of `pat` as a contiguous sublist of `l`
(Python `str.find`); `pat = []` matches at index 0. -/
def findSubIdx : (l pat : List Char) → Option Nat
  | [], pat => if pat.isPrefixOf ([] : List Char) then some 0 else none
  | l@(_ :: rest), pat =>
    if pat.isPrefixOf l then some 0 else (findSubIdx rest pat).map (· + 1)

/-- Python `s.replace(old, new, 1)`: replace the first occurrence of `old`
by `new`; when `old` is empty this inserts `new` at position 0. -/
def pyReplaceFirst (s old new : String) : String :=
  match findSubIdx s.data old.data with
  | some i => ⟨s.data.take i ++ new.data ++ s.data.drop (i + old.data.length)⟩
  | none => s

/-! ### Line Normalizer (`formatting`, `strip_comments_and_blank_lines`)

`formatting` is four sequential global regex substitutions
(`:=` → ` := `, `␣␣:=` → `␣:=`, `:=␣␣` → `:=␣`, `:=␣\n` → `:=\n`); each is
a single left-to-right non-overlapping pass, scanning resuming after each
match, exactly as `re.sub` does. -/

def fmtPad : List Char → List Char
  | ':' :: '=' :: rest => ' ' :: ':' :: '=' :: ' ' :: fmtPad rest
  | c :: rest => c :: fmtPad rest
  | [] => []

def fmtDropBefore : List Char → List Char
  | ' ' :: ' ' :: ':' :: '=' :: rest => ' ' :: ':' :: '=' :: fmtDropBefore rest
  | c :: rest => c :: fmtDropBefore rest
  | [] => []

def fmtDropAfter : List Char → List Char
  | ':' :: '=' :: ' ' :: ' ' :: rest => ':' :: '=' :: ' ' :: fmtDropAfter rest
  | c :: rest => c :: fmtDropAfter rest
  | [] => []

def fmtDropEol : List Char → List Char
  | ':' :: '=' :: ' ' :: '\n' :: rest => ':' :: '=' :: '\n' :: fmtDropEol rest
  | c :: rest => c :: fmtDropEol rest
  | [] => []

def formatting (code : String) : String :=
  ⟨fmtDropEol (fmtDropAfter (fmtDropBefore (fmtPad code.data)))⟩

/-- Scan for the earliest end of a block-comment terminator (dash-dash-slash
or dash-slash; the lazy alternation of the Python regex tries the longer
form first at each position); returns the remainder after the
terminator. -/
def findCommentEnd : List Char → Option (List Char)
  | '-' :: '-' :: '/' :: rest => some rest
  | '-' :: '/' :: rest => some rest
  | _ :: rest => findCommentEnd rest
  | [] => none

/-- The block-comment removing `re.sub` (DOTALL, non-greedy): remove every
block comment from each slash-dash opener to the first terminator; an
unterminated opener matches nothing (and then no later start can match
either, since no terminator exists after it).  Fuel is the length of the
input; every step consumes at least one character. -/
def stripBlockCommentsAux : Nat → List Char → List Char
  | 0, l => l
  | fuel + 1, '/' :: '-' :: rest =>
    match findCommentEnd rest with
    | some rest' => stripBlockCommentsAux fuel rest'
    | none => '/' :: '-' :: rest
  | fuel + 1, c :: rest => c :: stripBlockCommentsAux fuel rest
  | _ + 1, [] => []

def removeBlockComments (code : String) : String :=
  ⟨stripBlockCommentsAux code.data.length code.data⟩

/-- `re.split(r"--", line, maxsplit=1)[0]`: the text before the first
line-comment marker. -/
def takeBeforeComment : List Char → List Char
  | '-' :: '-' :: _ => []
  | c :: rest => c :: takeBeforeComment rest
  | [] => []

def get_indent (line : String) : Nat :=
  line.data.length - (line.data.dropWhile (· = ' ')).length

def DOT_KEYS : List String := [".", "·"]

/-- Per-line step of `strip_comments_and_blank_lines`: strip the line
comment and trailing whitespace, drop the line if blank, and rewrite a
leading bullet marker (`. ` / `· `) into a marker pseudo-line plus an
indented continuation line. -/
def processLine (line : String) : List String :=
  let stripped_line := pyRstrip ⟨takeBeforeComment line.data⟩
  if pyStrip stripped_line = "" then []
  else
    let noind_stripped := pyLstrip stripped_line
    if pyStartsWith noind_stripped ". " || pyStartsWith noind_stripped "· " then
      let indent := stripped_line.length - noind_stripped.length
      let dot_line : String := ⟨List.replicate indent ' ' ++ ['.']⟩
      let rest_line : String := ⟨List.replicate (indent + 2) ' ' ++ noind_stripped.data.drop 2⟩
      if pyStrip rest_line = "" then [dot_line] else [dot_line, rest_line]
    else [stripped_line]

def strip_comments_and_blank_lines (code : String) : List String :=
  (pySplitlines (formatting (removeBlockComments code))).flatMap processLine

/-! ### Header Extractor (`extract_headers`) -/

structure Headers where
  import_list : List String
  open_list : List String
  set_option_list : List String
  import_lines : List String
  open_lines : List String
  set_option_lines : List String
deriving Repr, DecidableEq

/-- `extract_headers`: scan the normalized lines for `import`/`open`/
`set_option` headers.  Lines produced by the normalizer are never blank
(`tokens[0]` cannot fail there); a blank line is modelled as matching no
header key.  `List.erase` removes only the first `"scoped"`, exactly like
Python's `list.remove`. -/
def extract_headers (cleaned_lines : List String) : Headers :=
  let h := cleaned_lines.foldl
    (fun (acc : Headers) (line : String) =>
      let tokens := pySplit line
      match tokens.head? with
      | some "import" =>
        { acc with import_list := acc.import_list ++ tokens.tail,
                   import_lines := acc.import_lines ++ [line] }
      | some "open" =>
        { acc with open_list := acc.open_list ++ tokens.tail,
                   open_lines := acc.open_lines ++ [line] }
      | some "set_option" =>
        { acc with set_option_list := acc.set_option_list ++ [line],
                   set_option_lines := acc.set_option_lines ++ [line] }
      | _ => acc)
    ⟨[], [], [], [], [], []⟩
  { h with open_list := h.open_list.erase "scoped" }

/-! ### Name extraction (`extract_name_from_code`, `get_theorem_name`) -/

/-- `extract_name_from_code`: `None` (contract violation / no name found)
is `none`; the anonymous default is `some default`. -/
def extract_name_from_code (code : String) (key : String)
    (default : String := "this") : Option String :=
  let code := pyStrip code
  if !pyStartsWith code (key ++ " ") then none
  else
    let rest := pyStrip ⟨code.data.drop key.length⟩
    if pyStartsWith rest ":" || pyStartsWith rest "(" || pyStartsWith rest ":=" then
      some default
    else
      let m := rest.data.takeWhile fun c =>
        !(c = ' ' || c = ':' || c = '{' || c = '[' || c = '(')
      if m.isEmpty then none else some ⟨m⟩

/-- `get_theorem_name`: the Python `assert` on text that does not start
with `theorem`/`lemma` is modelled as `Except.error`. -/
def get_theorem_name (code : String) (default : String := "this") :
    Except String (Option String) :=
  if !(pyStartsWith code "theorem" || pyStartsWith code "lemma") then
    Except.error "code must start with theorem or lemma"
  else if pyStartsWith code "theorem" then
    Except.ok (extract_name_from_code code "theorem" default)
  else
    Except.ok (extract_name_from_code code "lemma" default)

/-! ### Statement/Proof Splitter (`extract_statement_and_proof_from_code`) -/

/-- Python `":=" in code`. -/
def hasColonEq : List Char → Bool
  | [] => false
  | c :: rest => if c = ':' ∧ rest.head? = some '=' then true else hasColonEq rest

/-- Index of the first occurrence of the substring `":="`
(split point of `code.split(":=", maxsplit=1)`). -/
def firstColonEqIdx : List Char → Option Nat
  | [] => none
  | c :: rest =>
    if c = ':' ∧ rest.head? = some '=' then some 0
    else (firstColonEqIdx rest).map (· + 1)

/-- The character scan of `extract_statement_and_proof_from_code`: three
signed bracket counters, returning the index of the first `:=` found with
all three at zero. -/
def spScan : List Char → Nat → Int → Int → Int → Option Nat
  | [], _, _, _, _ => none
  | c :: rest, i, paren_count, bracket_count, brace_count =>
    if c = '(' then spScan rest (i + 1) (paren_count + 1) bracket_count brace_count
    else if c = '[' then spScan rest (i + 1) paren_count (bracket_count + 1) brace_count
    else if c = '{' then spScan rest (i + 1) paren_count bracket_count (brace_count + 1)
    else if c = ')' then spScan rest (i + 1) (paren_count - 1) bracket_count brace_count
    else if c = ']' then spScan rest (i + 1) paren_count (bracket_count - 1) brace_count
    else if c = '}' then spScan rest (i + 1) paren_count bracket_count (brace_count - 1)
    else if c = ':' ∧ rest.head? = some '=' ∧ paren_count = 0 ∧ bracket_count = 0 ∧
        brace_count = 0 then some i
    else spScan rest (i + 1) paren_count bracket_count brace_count

/-- `extract_statement_and_proof_from_code`: `None` when the text has no
`:=`; otherwise split at the first zero-depth `:=`, falling back to the
first literal `:=` (`code.split(":=", 1)`) when the scan finds none. -/
def extract_statement_and_proof_from_code (code : String) : Option (String × String) :=
  if hasColonEq code.data then
    match spScan code.data 0 0 0 0 with
    | some i => some (pyStrip ⟨code.data.take i⟩, pyStrip ⟨code.data.drop (i + 2)⟩)
    | none =>
      match firstColonEqIdx code.data with
      | some j => some (pyStrip ⟨code.data.take j⟩, pyStrip ⟨code.data.drop (j + 2)⟩)
      | none => some (pyStrip code, "")
  else none

/-! Specification-side predicates for the splitter (from the spec's words:
"three independent signed counters … incremented on open, decremented on
close; the first `:=` encountered while all three counters are exactly
zero"). -/

/-- Net bracket depth contributed by `l` for the bracket pair
`opc`/`clc`. -/
def bracketDelta (opc clc : Char) (l : List Char) : Int :=
  (l.map fun c => if c = opc then (1 : Int) else if c = clc then -1 else 0).sum

/-- The two-character operator `:=` occurs at index `i`. -/
def colonEqAt (l : List Char) (i : Nat) : Prop :=
  l[i]? = some ':' ∧ l[i + 1]? = some '='

/-- All three bracket counters are zero after scanning the first `i`
characters, starting from counter values `p`, `b`, `r`. -/
def countersZeroAt (p b r : Int) (l : List Char) (i : Nat) : Prop :=
  p + bracketDelta '(' ')' (l.take i) = 0 ∧
    b + bracketDelta '[' ']' (l.take i) = 0 ∧
    r + bracketDelta '{' '}' (l.take i) = 0

/-- All three bracket counters (each starting at zero) are zero at index
`i`. -/
def zeroDepthAt (l : List Char) (i : Nat) : Prop := countersZeroAt 0 0 0 l i

instance (l : List Char) (i : Nat) : Decidable (colonEqAt l i) := by
  unfold colonEqAt; infer_instance

instance (p b r : Int) (l : List Char) (i : Nat) : Decidable (countersZeroAt p b r l i) := by
  unfold countersZeroAt; infer_instance

instance (l : List Char) (i : Nat) : Decidable (zeroDepthAt l i) := by
  unfold zeroDepthAt; infer_instance

/-! ### Block Classifier (`parse_block`) -/

structure BlockInfo where
  name : Option String
  statement : String
  proof : String
  with_sorry : Bool
  proof_style : String
  inner_indent : Nat
deriving Repr, DecidableEq

structure Block where
  start : Nat
  endIdx : Nat
  lines : List String
  indent : Nat
  key : String
  info : BlockInfo
deriving Repr, DecidableEq

/-- Index of the last newline of `l` (used for the second `inner_indent`
regex, which strips the longest all-whitespace prefix ending in a
newline). -/
def lastNlIdx : List Char → Option Nat
  | '\n' :: rest =>
    match lastNlIdx rest with
    | some k => some (k + 1)
    | none => some 0
  | _ :: rest => (lastNlIdx rest).map (· + 1)
  | [] => none

/-- `parse_block`: classify a block's lines.  Python indexes `lines[0]`,
which raises on an empty list — modelled as `none`; every caller passes a
nonempty list. -/
def parse_block (lines : List String) (key : String) : Option BlockInfo :=
  match lines with
  | [] => none
  | line0 :: _ =>
    let raw := String.intercalate "\n" lines
    let nsp :=
      if key ∈ DOT_KEYS then
        (some ".", ".", pyLstrip ⟨(pyLstrip raw).data.drop 1⟩)
      else
        let name := extract_name_from_code line0 key
        match extract_statement_and_proof_from_code raw with
        | some (s, p) => (name, s, p)
        | none => (name, "", "")
    let name := nsp.1
    let statement := nsp.2.1
    let proof := nsp.2.2
    let with_sorry := (pySplit raw).contains "sorry"
    let proof_style :=
      if pyStartsWith proof "by" then "tactic"
      else if key ∈ DOT_KEYS then "dot_block"
      else if proof ≠ "" then "term" else "unknown"
    -- inner_indent: drop the proof's first line, then the leading blank lines
    let cleaned_raw_proof := proof.data.dropWhile (· ≠ '\n')
    let ws := cleaned_raw_proof.takeWhile pyIsSpace
    let cleaned_raw_proof2 :=
      match lastNlIdx ws with
      | some k => cleaned_raw_proof.drop (k + 1)
      | none => cleaned_raw_proof
    let inner_indent0 :=
      cleaned_raw_proof2.length - (cleaned_raw_proof2.dropWhile pyIsSpace).length
    let inner_indent :=
      if inner_indent0 = 0 then get_indent line0 + 2 else inner_indent0
    some ⟨name, statement, proof, with_sorry, proof_style, inner_indent⟩

/-! ### Block Scanner (`strip_brackets`, `get_block_from_lid`) -/

/-- Helper for `strip_brackets`: find the earliest closer `clc` with no
bracket character of the same type before it, returning the remainder
after it (the non-greedy bracket regex body excludes both `opc` and
`clc`). -/
def sbScanClose (opc clc : Char) : List Char → Option (List Char)
  | [] => none
  | c :: rest =>
    if c = clc then some rest
    else if c = opc then none
    else sbScanClose opc clc rest

/-- `strip_brackets`: one left-to-right `re.sub` pass removing every
innermost non-nesting bracketed group of each of the three bracket types;
scanning resumes after each removed group.  Fuel is the input length. -/
def strip_brackets_aux : Nat → List Char → List Char
  | 0, l => l
  | _ + 1, [] => []
  | fuel + 1, c :: rest =>
    if c = '(' then
      match sbScanClose '(' ')' rest with
      | some rest' => strip_brackets_aux fuel rest'
      | none => c :: strip_brackets_aux fuel rest
    else if c = '{' then
      match sbScanClose '{' '}' rest with
      | some rest' => strip_brackets_aux fuel rest'
      | none => c :: strip_brackets_aux fuel rest
    else if c = '[' then
      match sbScanClose '[' ']' rest with
      | some rest' => strip_brackets_aux fuel rest'
      | none => c :: strip_brackets_aux fuel rest
    else c :: strip_brackets_aux fuel rest

def strip_brackets (code : String) : String :=
  ⟨strip_brackets_aux code.data.length code.data⟩

/-- The `while` loop of `get_block_from_lid`: walk lines after the start
line, extending the block on strictly larger indentation, skipping blank
lines (unreachable for normalized input, kept for fidelity), and on equal
indentation continuing a multi-line signature only while the accumulated
text, bracket-stripped, still has no `:=`.  Returns the collected lines
and the final loop index.  Fuel is the number of lines; each iteration
advances the index by one. -/
def block_scan (cleaned_lines : List String) (key : String) (start_indent : Nat) :
    Nat → List String → Nat → List String × Nat
  | 0, block_lines, i => (block_lines, i)
  | fuel + 1, block_lines, i =>
    if i < cleaned_lines.length then
      let line := cleaned_lines.getD i ""
      let line_indent := get_indent line
      if start_indent < line_indent then
        block_scan cleaned_lines key start_indent fuel (block_lines ++ [line]) (i + 1)
      else if pyStrip line = "" then
        block_scan cleaned_lines key start_indent fuel block_lines (i + 1)
      else if line_indent = start_indent then
        if key ∈ DOT_KEYS then (block_lines, i)
        else if !hasColonEq (strip_brackets (String.intercalate "\n" block_lines)).data then
          block_scan cleaned_lines key start_indent fuel (block_lines ++ [line]) (i + 1)
        else (block_lines, i)
      else (block_lines, i)
    else (block_lines, i)

/-- `get_block_from_lid`: `Except.error` models the Python `IndexError`
raised by `start_line.split()[0]` on a blank line (impossible for
normalizer output) and by `parse_block` on an empty line list (impossible,
the block always contains its start line). -/
def get_block_from_lid (cleaned_lines : List String) (start_line_index : Nat)
    (keys : List String := ["theorem"]) : Except String (Option Block) :=
  if cleaned_lines.length ≤ start_line_index then Except.ok none
  else
    let start_line := cleaned_lines.getD start_line_index ""
    match (pySplit start_line).head? with
    | none => Except.error "IndexError: blank line has no tokens"
    | some key =>
      if key ∉ keys then Except.ok none
      else
        let start_indent := get_indent start_line
        let scanned := block_scan cleaned_lines key start_indent cleaned_lines.length
          [start_line] (start_line_index + 1)
        match parse_block scanned.1 key with
        | none => Except.error "IndexError: empty block"
        | some info =>
          Except.ok (some ⟨start_line_index, scanned.2 - 1, scanned.1, start_indent, key, info⟩)

/-! ### All-Blocks Extractor (`extract_all_blocks`) -/

def proofLineCount (b : Block) : Nat := (pySplitlines b.info.proof).length

/-- The scanning loop of `extract_all_blocks`: try every line index; keep a
matched block whose proof line count is within the filter bounds; when
overlap is disallowed, resume right after the kept block's end line.  Fuel
is the number of lines; each iteration strictly advances the index. -/
def extract_loop (cleaned_lines : List String) (keys : List String) (allow_overlap : Bool)
    (min_proof_lines max_proof_lines : Nat) : Nat → Nat → Except String (List Block)
  | 0, _ => Except.ok []
  | fuel + 1, i =>
    if i < cleaned_lines.length then
      match get_block_from_lid cleaned_lines i keys with
      | Except.error e => Except.error e
      | Except.ok none =>
        extract_loop cleaned_lines keys allow_overlap min_proof_lines max_proof_lines
          fuel (i + 1)
      | Except.ok (some block) =>
        if min_proof_lines ≤ proofLineCount block ∧ proofLineCount block ≤ max_proof_lines then
          match extract_loop cleaned_lines keys allow_overlap min_proof_lines max_proof_lines
              fuel ((if allow_overlap then i else block.endIdx) + 1) with
          | Except.error e => Except.error e
          | Except.ok blocks => Except.ok (block :: blocks)
        else
          extract_loop cleaned_lines keys allow_overlap min_proof_lines max_proof_lines
            fuel (i + 1)
    else Except.ok []

def extract_all_blocks (cleaned_lines : List String) (keys : List String := ["theorem"])
    (allow_overlap : Bool := true) (min_proof_lines : Nat := 0)
    (max_proof_lines : Nat := 10000) : Except String (List Block) :=
  extract_loop cleaned_lines keys allow_overlap min_proof_lines max_proof_lines
    cleaned_lines.length 0

/-! ### `extract_other` -/

/-- Python `sorted` on (start, end) pairs: stable insertion sort, ascending
lexicographic. -/
def sortRangesInsert (x : Nat × Nat) : List (Nat × Nat) → List (Nat × Nat)
  | [] => [x]
  | y :: ys =>
    if x.1 < y.1 ∨ (x.1 = y.1 ∧ x.2 ≤ y.2) then x :: y :: ys
    else y :: sortRangesInsert x ys

def sortRanges (l : List (Nat × Nat)) : List (Nat × Nat) := l.foldr sortRangesInsert []

/-- The inner `while` of `extract_other`: advance `current_bid` past ranges
that end before `lid`. -/
def advance_bid (ranges : List (Nat × Nat)) (lid : Nat) : Nat → Nat → Nat
  | 0, bid => bid
  | fuel + 1, bid =>
    match ranges[bid]? with
    | some r => if r.2 < lid then advance_bid ranges lid fuel (bid + 1) else bid
    | none => bid

/-- The line-selection walk of `extract_other`: keep lines not covered by
any block range. -/
def selectOutside (ranges : List (Nat × Nat)) : List String → Nat → Nat → List String
  | [], _, _ => []
  | line :: restLines, lid, bid =>
    let bid := advance_bid ranges lid ranges.length bid
    let is_in_block :=
      match ranges[bid]? with
      | some r => decide (r.1 ≤ lid) && decide (lid ≤ r.2)
      | none => false
    if is_in_block then selectOutside ranges restLines (lid + 1) bid
    else line :: selectOutside ranges restLines (lid + 1) bid

/-- `extract_other`: all normalized lines outside every extracted
declaration block, with header-prefixed lines removed, joined and
stripped. -/
def extract_other (cleaned_lines : List String)
    (keys : List String := ["theorem", "lemma"])
    (except_line_prefix_list : List String := ["import", "open", "set_option"]) :
    Except String String := do
  let blocks ← extract_all_blocks cleaned_lines keys false 0 10000
  let selected_lines :=
    if blocks.isEmpty then cleaned_lines
    else selectOutside (sortRanges (blocks.map fun b => (b.start, b.endIdx)))
      cleaned_lines 0 0
  pure (pyStrip (String.intercalate "\n"
    (selected_lines.filter fun line =>
      !(except_line_prefix_list.any fun p => pyStartsWith (pyStrip line) p))))

/-! ### Composer (`create_statement_with_lemmas`) -/

/-- The per-lemma rewrite of the Composer:
`raw.replace("theorem ", "lemma ", 1)`. -/
def rewrite_theorem_to_lemma (raw : String) : String :=
  pyReplaceFirst raw "theorem " "lemma "

/-- Python `sorted` on strings (code-point lexicographic), used on
deduplicated sets, so elements are distinct. -/
def insertStr (x : String) : List String → List String
  | [] => [x]
  | y :: ys => if x < y then x :: y :: ys else y :: insertStr x ys

def sortStrings (l : List String) : List String := l.foldr insertStr []

/-- Python `sorted(set(l))`. -/
def pySortedSet (l : List String) : List String := sortStrings l.dedup

/-- `create_statement_with_lemmas`: reassemble one source file from a main
snippet and lemma snippets, deduplicating headers, rewriting each lemma
block with `rewrite_theorem_to_lemma`.  Python's sets are modelled as
accumulated lists rendered through `pySortedSet`. -/
def create_statement_with_lemmas (original_statement : String) (lemmas : List String) :
    Except String (String × List String) := do
  let p_cleaned := strip_comments_and_blank_lines original_statement
  let headers := extract_headers p_cleaned
  let blocks ← extract_all_blocks p_cleaned ["theorem", "lemma"] false 0 10000
  let other ← extract_other p_cleaned ["theorem", "lemma"] ["import", "open", "set_option"]
  let final_main_theorem_codes := blocks.map fun b => String.intercalate "\n" b.lines
  let init : List String × List String × List String × List String × List String :=
    (headers.import_list, headers.open_list, headers.set_option_list,
     if other.length > 0 then [other] else [], [])
  let res ← lemmas.foldlM
    (fun (acc : List String × List String × List String × List String × List String)
        (lemma_raw : String) => do
      let (imps, opens, setopts, others, lemma_codes) := acc
      let cl := strip_comments_and_blank_lines lemma_raw
      let hs := extract_headers cl
      let bs ← extract_all_blocks cl ["theorem", "lemma"] false 0 10000
      let oth ← extract_other cl ["theorem", "lemma"] ["import", "open", "set_option"]
      let others := if oth.length > 0 then others ++ [oth] else others
      let new_codes := bs.map fun b => rewrite_theorem_to_lemma (String.intercalate "\n" b.lines)
      pure (imps ++ hs.import_list, opens ++ hs.open_list, setopts ++ hs.set_option_list,
        others, lemma_codes ++ new_codes))
    init
  let (imps, opens, setopts, others, final_lemma_codes) := res
  let fc1 := String.join ((pySortedSet imps).map fun x => "import " ++ x ++ "\n") ++ "\n"
  let fc2 :=
    if pySortedSet setopts ≠ [] then
      String.join ((pySortedSet setopts).map fun x => pyStrip x ++ "\n") ++ "\n"
    else ""
  let fc3 :=
    if pySortedSet opens ≠ [] then
      "open" ++ String.join ((pySortedSet opens).map fun x => " " ++ x) ++ "\n"
    else ""
  let fc4 :=
    if pySortedSet others ≠ [] then
      "\n" ++ String.join ((pySortedSet others).map fun x => x ++ "\n\n")
    else ""
  let fc5 := "\n" ++ String.join (final_lemma_codes.map fun x => x ++ "\n\n") ++ "\n"
  let fc6 := String.join (final_main_theorem_codes.map fun x => x ++ "\n\n")
  pure (fc1 ++ fc2 ++ fc3 ++ fc4 ++ fc5 ++ fc6, final_lemma_codes)

/-! ### Stub Generator (`gen_one_sorry_of_block`, `create_proof_with_sorries`) -/

/-- Python `sorted(blocks, key=end-start, reverse=True)`: stable insertion
sort, descending by line span. -/
def sortBlocksBySpanDescInsert (x : Block) : List Block → List Block
  | [] => [x]
  | y :: ys =>
    if y.endIdx - y.start ≤ x.endIdx - x.start then x :: y :: ys
    else y :: sortBlocksBySpanDescInsert x ys

def sortBlocksBySpanDesc (l : List Block) : List Block :=
  l.foldr sortBlocksBySpanDescInsert []

/-- `gen_one_sorry_of_block`: replace (first occurrence, textually) the
block's proof inside the block text, then the block text inside the
running source. -/
def gen_one_sorry_of_block (original_cleaned : String) (block_to_replace : Block) : String :=
  let blockinfo := block_to_replace.info
  let raw_block := String.intercalate "\n" block_to_replace.lines
  let proof := blockinfo.proof
  let raw_block_with_sorry := pyReplaceFirst raw_block proof
    (if blockinfo.proof_style = "tactic" then "by sorry" else "sorry")
  pyReplaceFirst original_cleaned raw_block raw_block_with_sorry

/-- `create_proof_with_sorries`: stub the proofs of the largest extracted
sub-goal blocks (at most `max_sorry_cnt` of them). -/
def create_proof_with_sorries (original_statement : String)
    (keys : List String := ["have", "replace"]) (max_sorry_cnt : Nat := 100000)
    (min_proof_lines : Nat := 0) (max_proof_lines : Nat := 100000) :
    Except String String := do
  let cleaned := strip_comments_and_blank_lines original_statement
  let blocks ← extract_all_blocks cleaned keys false min_proof_lines max_proof_lines
  let blocks := (sortBlocksBySpanDesc blocks).take max_sorry_cnt
  pure (blocks.foldl gen_one_sorry_of_block (String.intercalate "\n" cleaned))

/-! ### Supporting lemmas: normalized lines are never blank -/

theorem stripListLeft_replicate_space_dot (n : Nat) :
    stripListLeft (List.replicate n ' ' ++ ['.']) = ['.'] := by
  induction n with
  | zero => simp [stripListLeft, pyIsSpace]
  | succ m ih =>
    rw [List.replicate_succ, List.cons_append, stripListLeft, List.dropWhile_cons]
    rw [stripListLeft] at ih
    simp only [show pyIsSpace ' ' = true from rfl, if_true]
    exact ih

theorem pyStrip_replicate_space_dot (n : Nat) :
    pyStrip ⟨List.replicate n ' ' ++ ['.']⟩ = "." := by
  simp [pyStrip, stripList, stripListLeft_replicate_space_dot, stripListRight, pyIsSpace]

theorem mem_processLine_nonblank (line s : String) (hs : s ∈ processLine line) :
    pyStrip s ≠ "" := by
  simp only [processLine] at hs
  split at hs
  · simp at hs
  · rename_i hstripped
    split at hs
    · split at hs
      · simp only [List.mem_singleton] at hs
        subst hs
        rw [pyStrip_replicate_space_dot]
        intro h
        simp [String.ext_iff] at h
      · simp only [List.mem_cons, List.mem_singleton] at hs
        rcases hs with hs | hs | hs
        · subst hs
          rw [pyStrip_replicate_space_dot]
          intro h
          simp [String.ext_iff] at h
        · subst hs; assumption
        · simp at hs
    · simp only [List.mem_singleton] at hs
      subst hs; assumption

theorem cleaned_nonblank (code : String) (s : String)
    (hs : s ∈ strip_comments_and_blank_lines code) : pyStrip s ≠ "" := by
  unfold strip_comments_and_blank_lines at hs
  rw [List.mem_flatMap] at hs
  obtain ⟨line, _, hmem⟩ := hs
  exact mem_processLine_nonblank line s hmem

theorem pySplitWsAux_ne_nil (l : List Char) :
    ∀ acc, (acc ≠ [] ∨ ∃ c ∈ l, pyIsSpace c = false) → pySplitWsAux l acc ≠ [] := by
  induction l with
  | nil =>
    intro acc h
    rcases h with h | ⟨c, hc, _⟩
    · simp [pySplitWsAux, List.isEmpty_iff, h]
    · simp at hc
  | cons c rest ih =>
    intro acc h
    simp only [pySplitWsAux]
    split
    · rename_i hsp
      split
      · rename_i hacc
        apply ih
        right
        rcases h with h | ⟨d, hd, hdsp⟩
        · exact absurd (List.isEmpty_iff.mp hacc) h
        · rcases List.mem_cons.mp hd with rfl | hd'
          · rw [hsp] at hdsp; simp at hdsp
          · exact ⟨d, hd', hdsp⟩
      · simp
    · apply ih
      left
      simp

theorem pySplit_head_of_nonblank (s : String) (h : pyStrip s ≠ "") :
    ∃ t, (pySplit s).head? = some t := by
  have hall : ¬ s.data.all pyIsSpace = true := by
    intro hall
    apply h
    have h1 : stripListLeft s.data = [] := by
      rw [stripListLeft, List.dropWhile_eq_nil_iff]
      intro x hx
      exact (List.all_eq_true.mp hall) x hx
    simp [pyStrip, stripList, h1, stripListRight, String.ext_iff, List.dropWhile]
  have hex : ∃ c ∈ s.data, pyIsSpace c = false := by
    simp only [List.all_eq_true, not_forall] at hall
    obtain ⟨c, hc, hcs⟩ := hall
    exact ⟨c, hc, by simpa using hcs⟩
  have hne := pySplitWsAux_ne_nil s.data [] (Or.inr hex)
  unfold pySplit
  cases hsplit : pySplitWsAux s.data [] with
  | nil => exact absurd hsplit hne
  | cons a as => exact ⟨⟨a⟩, rfl⟩

/-! ### Supporting lemmas: the block scanner's loop -/

theorem block_scan_snd_ge (cl : List String) (key : String) (ind : Nat) :
    ∀ fuel bl i, i ≤ (block_scan cl key ind fuel bl i).2 := by
  intro fuel
  induction fuel with
  | zero => intro bl i; exact Nat.le.refl
  | succ n ih =>
    intro bl i
    simp only [block_scan]
    split
    · split
      · exact le_trans (Nat.le_succ i) (ih _ _)
      · split
        · exact le_trans (Nat.le_succ i) (ih _ _)
        · split
          · split
            · exact Nat.le.refl
            · split
              · exact le_trans (Nat.le_succ i) (ih _ _)
              · exact Nat.le.refl
          · exact Nat.le.refl
    · exact Nat.le.refl

theorem block_scan_len (cl : List String) (key : String) (ind : Nat)
    (hnb : ∀ l ∈ cl, pyStrip l ≠ "") :
    ∀ fuel bl i, (block_scan cl key ind fuel bl i).1.length + i =
      bl.length + (block_scan cl key ind fuel bl i).2 := by
  intro fuel
  induction fuel with
  | zero => intro bl i; rfl
  | succ n ih =>
    intro bl i
    simp only [block_scan]
    split
    · rename_i hlt
      have hmem : cl.getD i "" ∈ cl := by
        rw [List.getD_eq_getElem cl "" hlt]
        exact List.getElem_mem hlt
      split
      · have := ih (bl ++ [cl.getD i ""]) (i + 1)
        simp only [List.length_append, List.length_singleton] at this
        omega
      · split
        · rename_i hblank
          exact absurd hblank (hnb _ hmem)
        · split
          · split
            · rfl
            · split
              · have := ih (bl ++ [cl.getD i ""]) (i + 1)
                simp only [List.length_append, List.length_singleton] at this
                omega
              · rfl
          · rfl
    · rfl

theorem parse_block_eq_none_iff (lines : List String) (key : String) :
    parse_block lines key = none ↔ lines = [] := by
  cases lines <;> simp [parse_block]

/-- Shared specification of `get_block_from_lid` on normalizer output: it
never raises, returns `none` exactly when the index is out of range or the
first token of the start line is not an accepted key, and any returned
block starts at the queried index with a line count matching its span. -/
theorem get_block_spec (cl : List String) (hnb : ∀ l ∈ cl, pyStrip l ≠ "")
    (i : Nat) (keys : List String) :
    ∃ r, get_block_from_lid cl i keys = Except.ok r ∧
      (r = none ↔ (cl.length ≤ i ∨
        ∃ t, (pySplit (cl.getD i "")).head? = some t ∧ t ∉ keys)) ∧
      ∀ b, r = some b →
        b.start = i ∧ i ≤ b.endIdx ∧ b.lines.length = b.endIdx - b.start + 1 := by
  simp only [get_block_from_lid]
  split
  · rename_i hle
    exact ⟨none, rfl, by simp [hle], by simp⟩
  · rename_i hgt
    have hlt : i < cl.length := by omega
    have hmem : cl.getD i "" ∈ cl := by
      rw [List.getD_eq_getElem cl "" hlt]
      exact List.getElem_mem hlt
    obtain ⟨t, ht⟩ := pySplit_head_of_nonblank _ (hnb _ hmem)
    simp only [ht]
    by_cases hk : t ∈ keys
    · rw [if_neg (not_not_intro hk)]
      set scanned := block_scan cl t (get_indent (cl.getD i "")) cl.length
        [cl.getD i ""] (i + 1) with hscanned
      have hge := block_scan_snd_ge cl t (get_indent (cl.getD i "")) cl.length
        [cl.getD i ""] (i + 1)
      have hlen := block_scan_len cl t (get_indent (cl.getD i "")) hnb cl.length
        [cl.getD i ""] (i + 1)
      rw [← hscanned] at hge hlen
      have hne : scanned.1 ≠ [] := by
        intro hnil
        rw [hnil] at hlen
        simp at hlen
        omega
      cases hp : parse_block scanned.1 t with
      | none => exact absurd ((parse_block_eq_none_iff _ _).mp hp) hne
      | some info =>
        simp only [hp]
        refine ⟨some ⟨i, scanned.2 - 1, scanned.1, get_indent (cl.getD i ""), t, info⟩,
          rfl, ?_, ?_⟩
        · constructor
          · intro h; simp at h
          · intro h
            rcases h with h | ⟨t', ht', hk'⟩
            · exact absurd h hgt
            · injection ht' with ht''
              exact absurd hk (ht'' ▸ hk')
        · intro b hb
          injection hb with hb
          subst hb
          have h1 : scanned.1.length + (i + 1) = 1 + scanned.2 := by
            simpa using hlen
          refine ⟨rfl, ?_, ?_⟩
          · show i ≤ scanned.2 - 1
            omega
          · show scanned.1.length = scanned.2 - 1 - i + 1
            omega
    · rw [if_pos hk]
      refine ⟨none, rfl, ?_, by simp⟩
      constructor
      · intro _
        exact Or.inr ⟨t, rfl, hk⟩
      · intro _
        rfl

/-- Shared specification of the extractor loop on normalizer output: it
never raises; every returned block starts at or after the scanning index
and satisfies the span invariant; and with overlap disallowed, each block
ends strictly before the next one starts. -/
theorem extract_loop_spec (cl : List String) (hnb : ∀ l ∈ cl, pyStrip l ≠ "")
    (keys : List String) (ao : Bool) (minL maxL : Nat) :
    ∀ fuel i, ∃ bs, extract_loop cl keys ao minL maxL fuel i = Except.ok bs ∧
      (∀ b ∈ bs, i ≤ b.start ∧ b.start ≤ b.endIdx ∧
        b.lines.length = b.endIdx - b.start + 1) ∧
      (ao = false → bs.Pairwise fun a b => a.endIdx < b.start) := by
  intro fuel
  induction fuel with
  | zero =>
    intro i
    exact ⟨[], rfl, by simp, by simp⟩
  | succ n ih =>
    intro i
    simp only [extract_loop]
    split
    · obtain ⟨r, hr, hnone, hsome⟩ := get_block_spec cl hnb i keys
      cases r with
      | none =>
        simp only [hr]
        obtain ⟨bs, hbs, hmem, hpw⟩ := ih (i + 1)
        refine ⟨bs, hbs, ?_, hpw⟩
        intro b hb
        have := hmem b hb
        exact ⟨by omega, this.2.1, this.2.2⟩
      | some block =>
        obtain ⟨hstart, hend, hlen⟩ := hsome block rfl
        simp only [hr]
        split
        · obtain ⟨bs, hbs, hmem, hpw⟩ := ih ((if ao then i else block.endIdx) + 1)
          simp only [hbs]
          refine ⟨block :: bs, rfl, ?_, ?_⟩
          · intro b hb
            rcases List.mem_cons.mp hb with rfl | hb'
            · exact ⟨le_of_eq hstart.symm, hstart ▸ hend, hlen⟩
            · have h1 := hmem b hb'
              have h2 : i ≤ (if ao then i else block.endIdx) + 1 := by
                split <;> omega
              exact ⟨by omega, h1.2.1, h1.2.2⟩
          · intro hao
            subst hao
            have hmem' : ∀ b ∈ bs, block.endIdx + 1 ≤ b.start := by
              intro b hb
              have := (hmem b hb).1
              simpa using this
            refine List.pairwise_cons.mpr ⟨?_, hpw rfl⟩
            intro b hb
            have := hmem' b hb
            omega
        · obtain ⟨bs, hbs, hmem, hpw⟩ := ih (i + 1)
          refine ⟨bs, hbs, ?_, hpw⟩
          intro b hb
          have := hmem b hb
          exact ⟨by omega, this.2.1, this.2.2⟩
    · exact ⟨[], rfl, by simp, by simp⟩

/-- C2: for every input text, key set, and proof-line filter bounds,
`extract_all_blocks` with `allow_overlap = false` never raises and returns
a block list in which every earlier block ends strictly before every later
block starts (so scanning resumed past each matched block's end line), the
blocks are sorted strictly by start line index, and no two blocks share
any line index (any two blocks whose `[start, end]` ranges both contain
some line index `k` are the same block). -/
theorem C2_nonoverlap_blocks_disjoint_sorted (code : String) (keys : List String)
    (min_proof_lines max_proof_lines : Nat) :
    ∃ blocks,
      extract_all_blocks (strip_comments_and_blank_lines code) keys false
        min_proof_lines max_proof_lines = Except.ok blocks ∧
      blocks.Pairwise (fun a b => a.endIdx < b.start) ∧
      blocks.Pairwise (fun a b => a.start < b.start) ∧
      ∀ a ∈ blocks, ∀ b ∈ blocks, ∀ k, a.start ≤ k → k ≤ a.endIdx →
        b.start ≤ k → k ≤ b.endIdx → a = b := by
  obtain ⟨bs, hbs, hmem, hpw⟩ :=
    extract_loop_spec (strip_comments_and_blank_lines code)
      (cleaned_nonblank code) keys false min_proof_lines max_proof_lines
      (strip_comments_and_blank_lines code).length 0
  have hpw' := hpw rfl
  refine ⟨bs, hbs, hpw', ?_, ?_⟩
  · refine List.Pairwise.imp_of_mem ?_ hpw'
    intro a b ha _ hr
    have := (hmem a ha).2.1
    omega
  · have hsym : (bs.Pairwise fun a b => a.endIdx < b.start ∨ b.endIdx < a.start) :=
      hpw'.imp (fun h => Or.inl h)
    intro a ha b hb k hak hka hbk hkb
    by_contra hne
    have := List.Pairwise.forall (fun x y h => h.symm.imp id id) hsym ha hb hne
    rcases this with h | h <;> omega

/-- C8: every block returned by `get_block_from_lid` on normalized lines
(and hence every block returned by `extract_all_blocks`) satisfies
`start ≤ end` and has exactly `end - start + 1` lines. -/
theorem C8_block_span_line_count :
    (∀ (code : String) (idx : Nat) (keys : List String) (b : Block),
      get_block_from_lid (strip_comments_and_blank_lines code) idx keys =
        Except.ok (some b) →
      b.start ≤ b.endIdx ∧ b.lines.length = b.endIdx - b.start + 1) ∧
    (∀ (code : String) (keys : List String) (allow_overlap : Bool)
      (min_proof_lines max_proof_lines : Nat) (blocks : List Block) (b : Block),
      extract_all_blocks (strip_comments_and_blank_lines code) keys allow_overlap
        min_proof_lines max_proof_lines = Except.ok blocks →
      b ∈ blocks →
      b.start ≤ b.endIdx ∧ b.lines.length = b.endIdx - b.start + 1) := by
  constructor
  · intro code idx keys b hget
    obtain ⟨r, hr, _, hsome⟩ :=
      get_block_spec (strip_comments_and_blank_lines code)
        (cleaned_nonblank code) idx keys
    rw [hget] at hr
    injection hr with hr
    obtain ⟨h1, h2, h3⟩ := hsome b hr.symm
    exact ⟨h1 ▸ h2, h3⟩
  · intro code keys ao minL maxL blocks b hext hb
    obtain ⟨bs, hbs, hmem, _⟩ :=
      extract_loop_spec (strip_comments_and_blank_lines code)
        (cleaned_nonblank code) keys ao minL maxL
        (strip_comments_and_blank_lines code).length 0
    rw [extract_all_blocks] at hext
    rw [hext] at hbs
    injection hbs with hbs
    have := hmem b (hbs ▸ hb)
    exact ⟨this.2.1, this.2.2⟩

/-- Witness for C8 at a concrete input: the two-line theorem block spans
lines 0–1 and has two lines. -/
theorem C8_block_span_line_count_witness :
    ∃ b, get_block_from_lid
        (strip_comments_and_blank_lines "theorem t : A := by\n  simp") 0 ["theorem"] =
        Except.ok (some b) ∧
      b.start ≤ b.endIdx ∧ b.lines.length = b.endIdx - b.start + 1 :=
  ⟨_, rfl, C8_block_span_line_count.1 "theorem t : A := by\n  simp" 0 ["theorem"] _ rfl⟩

/-- C9: `get_block_from_lid` is total on normalized lines for every
non-negative start index and key set: it returns `Except.ok` (never the
`Except.error` that models a Python exception), and the result is `none`
exactly when the index is at or past the end of the normalized lines or
the starting line's first whitespace-separated token is not in the key set
(every normalized line is non-blank, so the first token always exists). -/
theorem C9_get_block_total (code : String) (idx : Nat) (keys : List String) :
    ∃ r, get_block_from_lid (strip_comments_and_blank_lines code) idx keys =
        Except.ok r ∧
      (r = none ↔ ((strip_comments_and_blank_lines code).length ≤ idx ∨
        ∃ t, (pySplit ((strip_comments_and_blank_lines code).getD idx "")).head? =
          some t ∧ t ∉ keys)) := by
  obtain ⟨r, hr, hnone, _⟩ :=
    get_block_spec (strip_comments_and_blank_lines code)
      (cleaned_nonblank code) idx keys
  exact ⟨r, hr, hnone⟩

/-! ### Supporting lemmas: the statement/proof splitter -/

theorem bracketDelta_cons (opc clc : Char) (c : Char) (l : List Char) :
    bracketDelta opc clc (c :: l) =
      (if c = opc then 1 else if c = clc then -1 else 0) + bracketDelta opc clc l := by
  simp [bracketDelta]

theorem colonEqAt_cons_zero (c : Char) (rest : List Char) :
    colonEqAt (c :: rest) 0 ↔ c = ':' ∧ rest.head? = some '=' := by
  simp [colonEqAt, ← List.head?_eq_getElem?]

theorem colonEqAt_cons_succ (c : Char) (rest : List Char) (k : Nat) :
    colonEqAt (c :: rest) (k + 1) ↔ colonEqAt rest k := by
  simp [colonEqAt]

theorem countersZeroAt_zero (p b r : Int) (l : List Char) :
    countersZeroAt p b r l 0 ↔ p = 0 ∧ b = 0 ∧ r = 0 := by
  simp [countersZeroAt, bracketDelta]

theorem countersZeroAt_cons_succ (p b r : Int) (c : Char) (rest : List Char) (k : Nat) :
    countersZeroAt p b r (c :: rest) (k + 1) ↔
      countersZeroAt (p + if c = '(' then 1 else if c = ')' then -1 else 0)
        (b + if c = '[' then 1 else if c = ']' then -1 else 0)
        (r + if c = '{' then 1 else if c = '}' then -1 else 0) rest k := by
  unfold countersZeroAt
  rw [List.take_succ_cons, bracketDelta_cons, bracketDelta_cons, bracketDelta_cons]
  constructor <;>
    (intro h; exact ⟨by linarith [h.1], by linarith [h.2.1], by linarith [h.2.2]⟩)

/-- One step of the splitter's scan when the current character is not a
zero-depth split point: each bracket character adjusts its own counter. -/
theorem spScan_step (c : Char) (rest : List Char) (i : Nat) (p b r : Int)
    (hnot : ¬(c = ':' ∧ rest.head? = some '=' ∧ p = 0 ∧ b = 0 ∧ r = 0)) :
    spScan (c :: rest) i p b r =
      spScan rest (i + 1) (p + if c = '(' then 1 else if c = ')' then -1 else 0)
        (b + if c = '[' then 1 else if c = ']' then -1 else 0)
        (r + if c = '{' then 1 else if c = '}' then -1 else 0) := by
  by_cases h1 : c = '('
  · subst h1; simp [spScan]
  by_cases h2 : c = '['
  · subst h2; simp [spScan]
  by_cases h3 : c = '{'
  · subst h3; simp [spScan]
  by_cases h4 : c = ')'
  · subst h4; simp [spScan, sub_eq_add_neg]
  by_cases h5 : c = ']'
  · subst h5; simp [spScan, sub_eq_add_neg]
  by_cases h6 : c = '}'
  · subst h6; simp [spScan, sub_eq_add_neg]
  simp only [spScan, if_neg h1, if_neg h2, if_neg h3, if_neg h4, if_neg h5, if_neg h6,
    if_neg hnot]
  simp [h1, h2, h3, h4, h5, h6]

/-- One step of the splitter's scan at a zero-depth split point. -/
theorem spScan_hit (c : Char) (rest : List Char) (i : Nat) (p b r : Int)
    (h : c = ':' ∧ rest.head? = some '=' ∧ p = 0 ∧ b = 0 ∧ r = 0) :
    spScan (c :: rest) i p b r = some i := by
  obtain ⟨hc, hnext, hp, hb, hr⟩ := h
  subst hc hp hb hr
  simp [spScan, hnext]

/-- The scan returns the first index at which `:=` occurs with all three
counters zero. -/
theorem spScan_eq_some_of_min :
    ∀ (l : List Char) (i : Nat) (p b r : Int) (j : Nat),
      colonEqAt l j → countersZeroAt p b r l j →
      (∀ m, m < j → ¬(colonEqAt l m ∧ countersZeroAt p b r l m)) →
      spScan l i p b r = some (i + j) := by
  intro l
  induction l with
  | nil =>
    intro i p b r j hceq _ _
    exact absurd hceq (by simp [colonEqAt])
  | cons c rest ih =>
    intro i p b r j hceq hzero hmin
    cases j with
    | zero =>
      rw [spScan_hit c rest i p b r
        ⟨((colonEqAt_cons_zero c rest).mp hceq).1, ((colonEqAt_cons_zero c rest).mp hceq).2,
          ((countersZeroAt_zero p b r _).mp hzero).1,
          ((countersZeroAt_zero p b r _).mp hzero).2.1,
          ((countersZeroAt_zero p b r _).mp hzero).2.2⟩]
      simp
    | succ k =>
      have hnot0 : ¬(c = ':' ∧ rest.head? = some '=' ∧ p = 0 ∧ b = 0 ∧ r = 0) := by
        rintro ⟨hc, hnext, hp, hb, hr⟩
        exact hmin 0 (Nat.succ_pos k)
          ⟨(colonEqAt_cons_zero c rest).mpr ⟨hc, hnext⟩,
            (countersZeroAt_zero p b r _).mpr ⟨hp, hb, hr⟩⟩
      rw [spScan_step c rest i p b r hnot0]
      rw [ih (i + 1) _ _ _ k ((colonEqAt_cons_succ c rest k).mp hceq)
        ((countersZeroAt_cons_succ p b r c rest k).mp hzero) ?_]
      · congr 1
        omega
      · intro m hm hand
        exact hmin (m + 1) (by omega)
          ⟨(colonEqAt_cons_succ c rest m).mpr hand.1,
            (countersZeroAt_cons_succ p b r c rest m).mpr hand.2⟩

/-- The scan returns `none` when no `:=` occurs with all three counters
zero. -/
theorem spScan_eq_none :
    ∀ (l : List Char) (i : Nat) (p b r : Int),
      (∀ j, colonEqAt l j → ¬ countersZeroAt p b r l j) →
      spScan l i p b r = none := by
  intro l
  induction l with
  | nil => intro i p b r _; rfl
  | cons c rest ih =>
    intro i p b r h
    have hnot0 : ¬(c = ':' ∧ rest.head? = some '=' ∧ p = 0 ∧ b = 0 ∧ r = 0) := by
      rintro ⟨hc, hnext, hp, hb, hr⟩
      exact h 0 ((colonEqAt_cons_zero c rest).mpr ⟨hc, hnext⟩)
        ((countersZeroAt_zero p b r _).mpr ⟨hp, hb, hr⟩)
    rw [spScan_step c rest i p b r hnot0]
    apply ih
    intro j hceq hz
    exact h (j + 1) ((colonEqAt_cons_succ c rest j).mpr hceq)
      ((countersZeroAt_cons_succ p b r c rest j).mpr hz)

theorem hasColonEq_iff (l : List Char) : hasColonEq l = true ↔ ∃ i, colonEqAt l i := by
  induction l with
  | nil => simp [hasColonEq, colonEqAt]
  | cons c rest ih =>
    simp only [hasColonEq]
    split
    · rename_i h
      exact iff_of_true rfl ⟨0, (colonEqAt_cons_zero c rest).mpr h⟩
    · rename_i h
      rw [ih]
      constructor
      · rintro ⟨i, hi⟩
        exact ⟨i + 1, (colonEqAt_cons_succ c rest i).mpr hi⟩
      · rintro ⟨i, hi⟩
        cases i with
        | zero => exact absurd ((colonEqAt_cons_zero c rest).mp hi) h
        | succ k => exact ⟨k, (colonEqAt_cons_succ c rest k).mp hi⟩

/-- `firstColonEqIdx` finds exactly the first `:=` occurrence. -/
theorem firstColonEqIdx_eq_some :
    ∀ (l : List Char) (j : Nat), colonEqAt l j → (∀ k, k < j → ¬ colonEqAt l k) →
      firstColonEqIdx l = some j := by
  intro l
  induction l with
  | nil =>
    intro j h _
    exact absurd h (by simp [colonEqAt])
  | cons c rest ih =>
    intro j hj hmin
    simp only [firstColonEqIdx]
    split
    · rename_i h
      cases j with
      | zero => rfl
      | succ k =>
        exact absurd ((colonEqAt_cons_zero c rest).mpr h) (hmin 0 (Nat.succ_pos k))
    · rename_i h
      cases j with
      | zero => exact absurd ((colonEqAt_cons_zero c rest).mp hj) h
      | succ k =>
        rw [ih k ((colonEqAt_cons_succ c rest k).mp hj)
          (fun m hm hc => hmin (m + 1) (by omega) ((colonEqAt_cons_succ c rest m).mpr hc))]
        rfl

/-- C1: the statement/proof splitter reports no-split exactly when the
text contains no `:=` anywhere; otherwise it splits at the first `:=`
occurring while all three bracket counters are zero, returning the
trimmed prefix as statement and the trimmed text after the two-character
operator as proof; when no zero-depth `:=` exists it falls back to the
first literal `:=`; and on the concrete input
`lemma bar (h : (fun x := x) = id) : True := trivial` it splits at the
outer `:=`, yielding proof `trivial`. -/
theorem C1_statement_proof_split :
    (∀ code : String,
      (extract_statement_and_proof_from_code code = none ↔
        ∀ i, ¬ colonEqAt code.data i) ∧
      (∀ i, colonEqAt code.data i → zeroDepthAt code.data i →
        (∀ j, j < i → ¬(colonEqAt code.data j ∧ zeroDepthAt code.data j)) →
        extract_statement_and_proof_from_code code =
          some (pyStrip ⟨code.data.take i⟩, pyStrip ⟨code.data.drop (i + 2)⟩)) ∧
      ((∀ i, colonEqAt code.data i → ¬ zeroDepthAt code.data i) →
        ∀ j, colonEqAt code.data j → (∀ k, k < j → ¬ colonEqAt code.data k) →
        extract_statement_and_proof_from_code code =
          some (pyStrip ⟨code.data.take j⟩, pyStrip ⟨code.data.drop (j + 2)⟩))) ∧
    extract_statement_and_proof_from_code
        "lemma bar (h : (fun x := x) = id) : True := trivial" =
      some ("lemma bar (h : (fun x := x) = id) : True", "trivial") := by
  constructor
  · intro code
    refine ⟨⟨?_, ?_⟩, ?_, ?_⟩
    · intro h i hi
      by_cases hc : hasColonEq code.data = true
      · exfalso
        unfold extract_statement_and_proof_from_code at h
        rw [if_pos hc] at h
        rcases hs : spScan code.data 0 0 0 0 with _ | v
        · rw [hs] at h
          rcases hf : firstColonEqIdx code.data with _ | w
          · rw [hf] at h; simp at h
          · rw [hf] at h; simp at h
        · rw [hs] at h; simp at h
      · exact absurd ((hasColonEq_iff _).mpr ⟨i, hi⟩) hc
    · intro h
      have hc : hasColonEq code.data = false := by
        rw [Bool.eq_false_iff]
        intro hc'
        obtain ⟨i, hi⟩ := (hasColonEq_iff _).mp hc'
        exact h i hi
      simp [extract_statement_and_proof_from_code, hc]
    · intro i hceq hzero hmin
      have hc : hasColonEq code.data = true := (hasColonEq_iff _).mpr ⟨i, hceq⟩
      have hs := spScan_eq_some_of_min code.data 0 0 0 0 i hceq hzero hmin
      simp only [extract_statement_and_proof_from_code, hc, if_true, hs, Nat.zero_add]
    · intro hnone j hceq hmin
      have hc : hasColonEq code.data = true := (hasColonEq_iff _).mpr ⟨j, hceq⟩
      have hs := spScan_eq_none code.data 0 0 0 0 (fun k hk => hnone k hk)
      have hf := firstColonEqIdx_eq_some code.data j hceq hmin
      simp only [extract_statement_and_proof_from_code, hc, if_true, hs, hf]
  · rfl

/-- Witness for C1: on `a := b` the `:=` at index 2 is at zero depth and
is minimal, and the splitter returns statement `a`, proof `b`. -/
theorem C1_statement_proof_split_witness :
    extract_statement_and_proof_from_code "a := b" = some ("a", "b") := by
  have h := (C1_statement_proof_split.1 "a := b").2.1 2 (by decide) (by decide)
    (by decide)
  exact h.trans rfl

/-! ### C7, C10: name extraction contracts -/

/-- C7: a contract violation is signaled as a hard failure, never a
guessed name: `extract_name_from_code` on text whose stripped form does
not start with the expected key returns the error sentinel `none`, and
`get_theorem_name` on text that does not start with `theorem`/`lemma`
raises (the Python `assert`, modelled as `Except.error`). -/
theorem C7_contract_violation_hard_failure :
    (∀ (code key default : String),
      ¬ pyStartsWith (pyStrip code) (key ++ " ") = true →
      extract_name_from_code code key default = none) ∧
    (∀ (code default : String),
      ¬ (pyStartsWith code "theorem" = true ∨ pyStartsWith code "lemma" = true) →
      ∃ e, get_theorem_name code default = Except.error e) := by
  constructor
  · intro code key default h
    have hb : pyStartsWith (pyStrip code) (key ++ " ") = false := by
      cases hx : pyStartsWith (pyStrip code) (key ++ " ")
      · rfl
      · exact absurd hx h
    simp [extract_name_from_code, hb]
  · intro code default h
    have h1 : pyStartsWith code "theorem" = false := by
      cases hx : pyStartsWith code "theorem"
      · rfl
      · exact absurd (Or.inl hx) h
    have h2 : pyStartsWith code "lemma" = false := by
      cases hx : pyStartsWith code "lemma"
      · rfl
      · exact absurd (Or.inr hx) h
    exact ⟨"code must start with theorem or lemma", by simp [get_theorem_name, h1, h2]⟩

/-- Witness for C7 at the concrete input `def foo : Nat`. -/
theorem C7_contract_violation_hard_failure_witness :
    extract_name_from_code "def foo : Nat" "theorem" "this" = none ∧
    ∃ e, get_theorem_name "def foo : Nat" "this" = Except.error e :=
  ⟨C7_contract_violation_hard_failure.1 "def foo : Nat" "theorem" "this" (by decide),
   C7_contract_violation_hard_failure.2 "def foo : Nat" "this" (by decide)⟩

/-- C10: for a declaration whose header after the key token begins with
`{` or `[`, name extraction returns the `none` sentinel — not the
anonymous default `this` and not a hard failure (`get_theorem_name`
returns `Except.ok none`): the anonymous check covers only `:`, `(` and
`:=`, while the name-character class also excludes `{` and `[`. -/
theorem C10_brace_header_yields_none :
    extract_name_from_code "theorem {x : Nat} : P := trivial" "theorem" "this" = none ∧
    get_theorem_name "theorem {x : Nat} : P := trivial" "this" = Except.ok none ∧
    extract_name_from_code "theorem [inst : Foo] : P := trivial" "theorem" "this" = none ∧
    get_theorem_name "theorem [inst : Foo] : P := trivial" "this" = Except.ok none :=
  ⟨rfl, rfl, rfl, rfl⟩

/-! ### C6: the `scoped` token in the open list -/

/-- C6 (code bug): with two `open scoped` lines the literal token `scoped`
survives in the extracted open-namespace list, because `list.remove`
deletes only its first occurrence; the spec requires `scoped` to be always
excluded. -/
theorem C6_scoped_token_survives :
    (extract_headers (strip_comments_and_blank_lines
        "open scoped Nat\nopen scoped Real")).open_list = ["Nat", "scoped", "Real"] ∧
    "scoped" ∈ (extract_headers (strip_comments_and_blank_lines
        "open scoped Nat\nopen scoped Real")).open_list := by
  refine ⟨rfl, ?_⟩
  rw [show (extract_headers (strip_comments_and_blank_lines
      "open scoped Nat\nopen scoped Real")).open_list = ["Nat", "scoped", "Real"] from rfl]
  simp

/-! ### C5: classifier styles -/

/-- C5 counterexample: a bullet block whose proof starts with `by` is
classified `tactic`, not `dot_block` (contradicting "if the key is a
bullet marker … proof_style is dot_block"); and a proof starting with the
token `by_cases` — not the token `by` — is still classified `tactic`
(contradicting "tactic exactly when the proof starts with the token
by"). -/
theorem C5_classifier_styles_counterexample :
    (extract_all_blocks (strip_comments_and_blank_lines ". by tauto")
        DOT_KEYS false 0 10000).map
      (List.map fun b => (b.key, b.info.proof, b.info.proof_style)) =
      Except.ok [(".", "by tauto", "tactic")] ∧
    (extract_all_blocks (strip_comments_and_blank_lines "have h : A := by_cases h")
        ["have"] false 0 10000).map
      (List.map fun b => (b.key, b.info.proof, b.info.proof_style)) =
      Except.ok [("have", "by_cases h", "tactic")] ∧
    (pySplit "by_cases h").head? = some "by_cases" ∧
    ("tactic" : String) ≠ "dot_block" ∧ ("by_cases" : String) ≠ "by" :=
  ⟨rfl, rfl, rfl, by decide, by decide⟩

theorem tactic_term_unknown_ne_dot_block (c : Prop) [Decidable c] (d : Prop) [Decidable d] :
    (if c then "tactic" else if d then "term" else "unknown") ≠ ("dot_block" : String) := by
  split
  · decide
  · split
    · decide
    · decide

/-- C5 (amended): for every block the classifier produces: a bullet-marker
key forces name `.` and statement `.`, with proof_style `tactic` when the
proof starts with the string `by` and `dot_block` otherwise; proof_style
`dot_block` implies the key is a bullet marker and the name is `.`; and
for non-bullet keys the style is `tactic` exactly when the proof starts
with the string `by` (a prefix test, not a token test), else `term` when
the proof is non-empty, else `unknown`. -/
theorem C5_classifier_styles (lines : List String) (key : String) (info : BlockInfo)
    (h : parse_block lines key = some info) :
    (key ∈ DOT_KEYS →
      info.name = some "." ∧ info.statement = "." ∧
      info.proof_style =
        if pyStartsWith info.proof "by" then "tactic" else "dot_block") ∧
    (info.proof_style = "dot_block" → key ∈ DOT_KEYS ∧ info.name = some ".") ∧
    (key ∉ DOT_KEYS →
      info.proof_style =
        if pyStartsWith info.proof "by" then "tactic"
        else if info.proof ≠ "" then "term" else "unknown") := by
  cases lines with
  | nil => simp [parse_block] at h
  | cons line0 rest =>
    simp only [parse_block] at h
    injection h with h
    subst h
    by_cases hdot : key ∈ DOT_KEYS
    · refine ⟨fun _ => ⟨by simp [hdot], by simp [hdot], by simp [hdot]⟩,
        fun _ => ⟨hdot, by simp [hdot]⟩, fun h' => absurd hdot h'⟩
    · refine ⟨fun h' => absurd h' hdot, fun hstyle => ?_, fun _ => by simp [hdot]⟩
      exfalso
      rw [if_neg hdot, if_neg hdot] at hstyle
      exact tactic_term_unknown_ne_dot_block _ _ hstyle

/-- Witness for C5 at a concrete bullet block whose proof does not start
with `by`. -/
theorem C5_classifier_styles_witness :
    ∃ info, parse_block [".", "  exact h"] "." = some info ∧
      info.name = some "." ∧ info.statement = "." ∧
      info.proof_style =
        if pyStartsWith info.proof "by" then "tactic" else "dot_block" :=
  ⟨_, rfl, (C5_classifier_styles [".", "  exact h"] "." _ rfl).1 (by decide)⟩

/-! ### C4: the Composer's theorem-to-lemma rewrite -/

theorem findSubIdx_of_prefix (l pat : List Char) (h : pat.isPrefixOf l = true) :
    findSubIdx l pat = some 0 := by
  cases l <;> simp [findSubIdx, h]

theorem pyReplaceFirst_append (pre rest new : String) :
    pyReplaceFirst (pre ++ rest) pre new = new ++ rest := by
  unfold pyReplaceFirst
  have hd : (pre ++ rest).data = pre.data ++ rest.data := String.data_append pre rest
  have hpre : pre.data.isPrefixOf (pre.data ++ rest.data) = true :=
    List.isPrefixOf_iff_prefix.mpr (List.prefix_append _ _)
  rw [hd, findSubIdx_of_prefix _ _ hpre]
  apply String.ext
  simp [String.data_append, List.drop_left]

/-- C4 counterexample: a lemma snippet whose block does not begin with
`theorem ` but contains `theorem ` inside its body is not preserved
verbatim — the Composer rewrites the inner occurrence. -/
theorem C4_composer_rewrite_counterexample :
    (create_statement_with_lemmas "" ["lemma foo : A := by\n  exact theorem bar"]).map
      Prod.snd = Except.ok ["lemma foo : A := by\n  exact lemma bar"] ∧
    ("lemma foo : A := by\n  exact lemma bar" : String) ≠
      "lemma foo : A := by\n  exact theorem bar" :=
  ⟨rfl, by decide⟩

/-- C4 (amended): the Composer's per-lemma rewrite replaces the first
occurrence of the substring `theorem ` anywhere in the lemma block (not
only a leading token); when the block does begin with `theorem `, that
first occurrence is the leading token, and everything after it —
including any inner `have` sub-proofs and any later occurrence of
`theorem ` in the block body — is preserved verbatim. -/
theorem C4_composer_rewrite :
    (∀ raw : String,
      rewrite_theorem_to_lemma raw = pyReplaceFirst raw "theorem " "lemma ") ∧
    (∀ raw rest : String, raw = "theorem " ++ rest →
      rewrite_theorem_to_lemma raw = "lemma " ++ rest) := by
  constructor
  · intro raw
    rfl
  · intro raw rest h
    subst h
    exact pyReplaceFirst_append "theorem " rest "lemma "

/-- Witness for C4: a block with a second `theorem ` occurrence after the
leading token keeps it verbatim. -/
theorem C4_composer_rewrite_witness :
    rewrite_theorem_to_lemma "theorem foo := theorem baz" =
      "lemma " ++ "foo := theorem baz" :=
  C4_composer_rewrite.2 "theorem foo := theorem baz" "foo := theorem baz" (by decide)

/-! ### C3: the stub generator and block count -/

/-- C3 (code bug): on the input `have h : A` — a `have` block whose proof
is empty — the Stub Generator's `str.replace("", "sorry", 1)` inserts the
placeholder at position 0, producing `sorryhave h : A`; re-running the
All-Blocks Extractor with the same keys then finds 0 blocks where the
input had 1, so stubbing deleted a block and the claimed count invariance
fails. -/
theorem C3_stub_block_count_not_invariant :
    create_proof_with_sorries "have h : A" ["have", "replace"] 100000 0 100000 =
      Except.ok "sorryhave h : A" ∧
    (extract_all_blocks (strip_comments_and_blank_lines "have h : A")
        ["have", "replace"] false 0 100000).map List.length = Except.ok 1 ∧
    (extract_all_blocks (strip_comments_and_blank_lines "sorryhave h : A")
        ["have", "replace"] false 0 100000).map List.length = Except.ok 0 :=
  ⟨rfl, rfl, rfl⟩

end Numina
